import Mathlib

/-!
Verification of the stability_analysis core (decay-index calculation and
PIL detection) against its natural-language specification.

Modelling conventions for the shallow embedding:
* Python/NumPy floats are modelled as real numbers; every non-finite float
  value (not-a-number and the infinities) is collapsed to the `none` value of
  `Option ℝ`, and all arithmetic propagates `none` the way IEEE arithmetic
  propagates non-finite values through the operations used by this code.
  In particular `np.log` of a non-positive argument yields a non-finite value
  (`none`), and a NumPy comparison with a non-finite value is `False`.
* NumPy arrays are total functions from indices together with explicit shape
  fields; the code only reads entries inside the stated shape.
* The `float('inf')` sentinel returned by `find_critical_height` is the
  `none` value of the `Option ℝ` result fields.
* Library routines whose internals the repository does not contain
  (scipy `gaussian_filter`, skimage `canny` and `dilation`/`thin`) enter the
  embedding as explicit function parameters of the operations that call them;
  theorems that need a documented fact about such a routine (for instance that
  thinning only removes pixels) take that fact as a hypothesis.
-/

namespace StabilityAnalysis

/-- Addition on not-a-number aware values: `none` (non-finite) propagates. -/
def oAdd : Option ℝ → Option ℝ → Option ℝ
  | some a, some b => some (a + b)
  | _, _ => none

/-- Subtraction on not-a-number aware values. -/
def oSub : Option ℝ → Option ℝ → Option ℝ
  | some a, some b => some (a - b)
  | _, _ => none

/-- Multiplication on not-a-number aware values.  Note `some 0 * none = none`,
matching IEEE `0 * nan = nan` and `0 * inf = nan`. -/
def oMul : Option ℝ → Option ℝ → Option ℝ
  | some a, some b => some (a * b)
  | _, _ => none

/-- Division on not-a-number aware values; division by zero is non-finite. -/
noncomputable def oDiv : Option ℝ → Option ℝ → Option ℝ
  | some a, some b => if b = 0 then none else some (a / b)
  | _, _ => none

/-- Embedding of `np.log`: the logarithm of a non-positive value is
non-finite (`np.log` returns `nan` for negative input and `-inf` at zero). -/
noncomputable def npLog : Option ℝ → Option ℝ
  | some a => if 0 < a then some (Real.log a) else none
  | none => none

/-- A 3D array with its shape, as passed around in the `magnetic_field_3d`
dict: `val` gives the entry at integer indices. -/
structure Arr3 where
  s1 : ℕ
  s2 : ℕ
  s3 : ℕ
  val : ℕ → ℕ → ℕ → Option ℝ

/-- A 2D array with its shape (a magnetogram). -/
structure Arr2 where
  rows : ℕ
  cols : ℕ
  val : ℕ → ℕ → Option ℝ

/-- A 2D boolean map (polarity maps, edge maps, PIL maps). -/
structure BoolMap2 where
  rows : ℕ
  cols : ℕ
  val : ℕ → ℕ → Bool

/-- Index of the interpolation cell used by `RegularGridInterpolator` for an
in-range coordinate on an axis of `n` integer grid points: the floor of the
coordinate, clamped so the cell `[i, i+1]` stays inside the grid. -/
noncomputable def cellIdx (n : ℕ) (x : ℝ) : ℕ := min ⌊x⌋₊ (n - 2)

/-- One linear-interpolation step of `RegularGridInterpolator`:
`(1 - t) * a + t * b` with non-finite propagation. -/
def lerpO (a b : Option ℝ) (t : ℝ) : Option ℝ :=
  oAdd (oMul (some (1 - t)) a) (oMul (some t) b)

/-- Trilinear evaluation of `scipy.interpolate.RegularGridInterpolator` built
on integer axes `0..s-1`, at an in-range point `(x, y, z)`. -/
noncomputable def interp3 (f : Arr3) (x y z : ℝ) : Option ℝ :=
  let i := cellIdx f.s1 x
  let j := cellIdx f.s2 y
  let k := cellIdx f.s3 z
  let tx := x - i
  let ty := y - j
  let tz := z - k
  lerpO
    (lerpO (lerpO (f.val i j k) (f.val i j (k+1)) tz)
           (lerpO (f.val i (j+1) k) (f.val i (j+1) (k+1)) tz) ty)
    (lerpO (lerpO (f.val (i+1) j k) (f.val (i+1) j (k+1)) tz)
           (lerpO (f.val (i+1) (j+1) k) (f.val (i+1) (j+1) (k+1)) tz) ty)
    tx

/-- Entry `i` of `np.linspace(a, b, n)` (for `n ≥ 2`). -/
noncomputable def linspace (a b : ℝ) (n : ℕ) (i : ℕ) : ℝ :=
  a + (b - a) * i / ((n : ℝ) - 1)

/-- Entry `i` of `np.gradient(f, z)` on `n` samples with a coordinate array
`z`: first-order one-sided differences at the two edges, and NumPy's
second-order three-point formula with coefficients
`a = -hs/(hd*(hd+hs))`, `b = (hs-hd)/(hd*hs)`, `c = hd/(hs*(hd+hs))`
in the interior. -/
noncomputable def npGradient (f : ℕ → Option ℝ) (z : ℕ → ℝ) (n : ℕ) (i : ℕ) :
    Option ℝ :=
  if i = 0 then oDiv (oSub (f 1) (f 0)) (some (z 1 - z 0))
  else if i = n - 1 then
    oDiv (oSub (f (n - 1)) (f (n - 2))) (some (z (n - 1) - z (n - 2)))
  else
    let hd := z i - z (i - 1)
    let hs := z (i + 1) - z i
    oAdd (oAdd (oMul (oDiv (some (-hs)) (some (hd * (hd + hs)))) (f (i - 1)))
               (oMul (oDiv (some (hs - hd)) (some (hd * hs))) (f i)))
         (oMul (oDiv (some hd) (some (hs * (hd + hs)))) (f (i + 1)))

/-- State of a constructed `DecayIndexCalculator`: the horizontal-magnitude
array the interpolator was built on, and the grid spacing. -/
structure DecayIndexCalculator where
  bh : Arr3
  dx : ℝ

/-- Marker for a Python call that raised. -/
def exceptOk {ε α : Type} : Except ε α → Bool
  | .ok _ => true
  | .error _ => false

/-- Embedding of `DecayIndexCalculator.__init__` / `_setup_interpolators`:
the axes are built from `bx.shape`, and `RegularGridInterpolator` raises
exactly when those axis lengths do not match the shape of the value array
`bh`.  The shapes of `by` and `bz` are never inspected. -/
def mkDecayIndexCalculator (bx bb bz bh : Arr3) (grid_spacing : ℝ) :
    Except Unit DecayIndexCalculator :=
  if bh.s1 = bx.s1 ∧ bh.s2 = bx.s2 ∧ bh.s3 = bx.s3 then
    .ok ⟨bh, grid_spacing⟩
  else
    .error ()

/-- Embedding of `DecayIndexCalculator.calculate_decay_index`: sample the
horizontal-magnitude interpolant along the vertical line through `(x, y)` at
`n_points` heights `np.linspace` over `z_range` (defaulting to
`(0, nz - 1)`), and return `-z * np.gradient(np.log(bh), z)`. -/
noncomputable def calculate_decay_index (c : DecayIndexCalculator) (x y : ℝ)
    (z_range : Option (ℝ × ℝ)) (n_points : ℕ) : ℕ → Option ℝ :=
  let zr := z_range.getD (0, (c.bh.s3 : ℝ) - 1)
  let z : ℕ → ℝ := linspace zr.1 zr.2 n_points
  let lnbh : ℕ → Option ℝ := fun i => npLog (interp3 c.bh x y (z i))
  let g := npGradient lnbh z n_points
  fun i => oMul (some (-(z i))) (g i)

/-- The condition of the `np.where` call in `find_critical_height`; a
non-finite profile entry satisfies neither comparison. -/
def inBand (lo hi : ℝ) : Option ℝ → Prop
  | some v => lo ≤ v ∧ v ≤ hi
  | none => False

open Classical

/-- The index array `np.where((d >= lo) & (d <= hi))[0]` over a profile of
length `n`, in increasing index order. -/
noncomputable def cross_points (d : ℕ → Option ℝ) (n : ℕ) (lo hi : ℝ) :
    List ℕ :=
  (List.range n).filter fun i => decide (inBand lo hi (d i))

/-- Result record of `find_critical_height`; `none` in the height fields is
the `float('inf')` sentinel. -/
structure DecayIndexResult where
  decay_index : ℕ → Option ℝ
  critical_height : Option ℝ
  critical_height_range : Option ℝ × Option ℝ

/-- Embedding of `DecayIndexCalculator.find_critical_height`: compute the
decay-index profile with default `z_range` and `n_points = 100`, convert
sample indices to heights by `z = np.arange(100) * dx`, and select the first
and last indices whose profile value lies within
`[critical_index - uncertainty, critical_index + uncertainty]`. -/
noncomputable def find_critical_height (c : DecayIndexCalculator) (x y : ℝ)
    (critical_index uncertainty : ℝ) : DecayIndexResult :=
  let d := calculate_decay_index c x y none 100
  let z : ℕ → ℝ := fun i => (i : ℝ) * c.dx
  let cp := cross_points d 100 (critical_index - uncertainty)
      (critical_index + uncertainty)
  if h : cp = [] then ⟨d, none, (none, none)⟩
  else ⟨d, some (z (cp.head h)),
        (some (z (cp.head h) - uncertainty * c.dx),
         some (z (cp.getLast h) + uncertainty * c.dx))⟩

/-- State of a `PILDetector` instance: the magnetogram and the three
cached maps, which start out as the `None` sentinel. -/
structure PILDetector where
  data : Arr2
  pos_map : Option BoolMap2
  neg_map : Option BoolMap2
  pil_map : Option BoolMap2

/-- Embedding of `PILDetector.__init__`. -/
def mkPILDetector (m : Arr2) : PILDetector := ⟨m, none, none, none⟩

/-- Embedding of `PILDetector.identify_polarity_regions`.  The scipy
`gaussian_filter` is an external library routine and enters as the function
parameter `gaussF`.  No validation of the thresholds is performed; the two
maps are set from the independent one-sided comparisons (a not-a-number
pixel satisfies neither). -/
noncomputable def identify_polarity_regions (gaussF : Arr2 → ℝ → Arr2)
    (det : PILDetector) (pos_thresh neg_thresh : ℝ)
    (apply_gaussian : Bool) (sigma : ℝ) : PILDetector :=
  let data := if apply_gaussian then gaussF det.data sigma else det.data
  let pos_map : BoolMap2 := ⟨data.rows, data.cols, fun i j =>
    decide (∃ v, data.val i j = some v ∧ pos_thresh ≤ v)⟩
  let neg_map : BoolMap2 := ⟨data.rows, data.cols, fun i j =>
    decide (∃ v, data.val i j = some v ∧ v ≤ neg_thresh)⟩
  ⟨det.data, some pos_map, some neg_map, det.pil_map⟩

/-- Embedding of `PILDetector.detect_edges`: skimage's `canny` is the
function parameter `cannyF` (applied at smoothing scale `sigma`); calling it
on the `None` sentinel raises. -/
def detect_edges (cannyF : ℝ → BoolMap2 → BoolMap2) (sigma : ℝ)
    (det : PILDetector) : Except Unit (BoolMap2 × BoolMap2) :=
  match det.pos_map, det.neg_map with
  | some p, some n => .ok (cannyF sigma p, cannyF sigma n)
  | _, _ => .error ()

/-- The un-thinned PIL map of `extract_pil`: `np.zeros(data.shape)` with ones
where both dilated edge maps are set and the magnetogram pixel is not
not-a-number (`pil_mask = ~np.isnan(data)`). -/
def pilRaw (dilF : ℕ → BoolMap2 → BoolMap2) (det : PILDetector)
    (pe ne : BoolMap2) : BoolMap2 :=
  ⟨det.data.rows, det.data.cols, fun i j =>
    (dilF 6 pe).val i j && (dilF 6 ne).val i j && (det.data.val i j).isSome⟩

/-- Embedding of `PILDetector.extract_pil`: detect edges (at `sigma = 1`),
dilate them with a square structuring element of size 6 (`dilF` is the
skimage dilation), intersect, mask out not-a-number magnetogram pixels, and
optionally thin (`thinF` is the skimage thinning).  Returns both the updated
detector state and the returned map. -/
def extract_pil (cannyF : ℝ → BoolMap2 → BoolMap2)
    (dilF : ℕ → BoolMap2 → BoolMap2) (thinF : BoolMap2 → BoolMap2)
    (det : PILDetector) (thinning : Bool) :
    Except Unit (PILDetector × BoolMap2) :=
  match detect_edges cannyF 1 det with
  | .error e => .error e
  | .ok (pe, ne) =>
    let pil := if thinning then thinF (pilRaw dilF det pe ne)
      else pilRaw dilF det pe ne
    .ok (⟨det.data, det.pos_map, det.neg_map, some pil⟩, pil)

/-- Number of true pixels of a boolean map (inside its shape). -/
def countTrue (m : BoolMap2) : ℕ :=
  ((Finset.range m.rows ×ˢ Finset.range m.cols).filter
    fun p => m.val p.1 p.2 = true).card

/-- Shorthand for `exp(-1/5)`, the ratio between consecutive integer-height
samples of the synthetic magnitude profile `100 * exp(-z/5)`. -/
noncomputable def rexp : ℝ := Real.exp (-(1/5))

/-- The horizontal-magnitude array of the crossing-correctness scenario:
`bh(x, y, z) = 100 * exp(-z/5)` on a `(2, 2, 50)` grid, so that every column
carries the synthetic profile of the specification. -/
noncomputable def expMagArr : Arr3 :=
  ⟨2, 2, 50, fun _ _ k => some (100 * Real.exp (-(k : ℝ) / 5))⟩

/-- Companion component arrays (only their `(2, 2, 50)` shape matters). -/
def expBxArr : Arr3 := ⟨2, 2, 50, fun _ _ _ => some 0⟩

/-- The calculator built over the synthetic exponential field with
`grid_spacing = 1.0`. -/
noncomputable def expCalc : DecayIndexCalculator := ⟨expMagArr, 1⟩

/-- A constant-magnitude field (`bh = 1` everywhere) on a `(2, 2, 2)` grid:
its decay-index profile is identically zero. -/
def oneArr : Arr3 := ⟨2, 2, 2, fun _ _ _ => some 1⟩

/-- Calculator over the constant field with `grid_spacing = 1.0`. -/
noncomputable def oneCalc : DecayIndexCalculator := ⟨oneArr, 1⟩

/-- A field with a zero-magnitude plane at height 3 on a `(2, 2, 7)` grid,
used to exercise the non-positive-logarithm path. -/
def stepArr : Arr3 :=
  ⟨2, 2, 7, fun _ _ k => some (if k = 3 then (0:ℝ) else 1)⟩

/-- Calculator over the zero-plane field with `grid_spacing = 1.0`. -/
noncomputable def stepCalc : DecayIndexCalculator := ⟨stepArr, 1⟩

/-- A 1-by-1 magnetogram with the single pixel value 50 Gauss. -/
def mag50 : Arr2 := ⟨1, 1, fun _ _ => some 50⟩

/-- A 1-by-1 magnetogram with the single pixel value 7 Gauss. -/
def mag7 : Arr2 := ⟨1, 1, fun _ _ => some 7⟩

/-- A `(1, 1, 1)`-shaped component array. -/
def smallArr : Arr3 := ⟨1, 1, 1, fun _ _ _ => some 0⟩

/-- A `(2, 2, 2)`-shaped component array. -/
def cubeArr : Arr3 := ⟨2, 2, 2, fun _ _ _ => some 0⟩

/-- The detector state after `identify_polarity_regions` with the inverted
thresholds `pos_thresh = 0 ≤ neg_thresh = 100` on `mag50`. -/
noncomputable def w2det : PILDetector :=
  identify_polarity_regions (fun a _ => a) (mkPILDetector mag50) 0 100 false 1

/-- The detector state after `identify_polarity_regions` with the inverted
thresholds `pos_thresh = 5 ≤ neg_thresh = 9` on `mag7`. -/
noncomputable def w2bdet : PILDetector :=
  identify_polarity_regions (fun a _ => a) (mkPILDetector mag7) 5 9 false 1

/-- The positive polarity map of `mag50` at threshold `t`. -/
noncomputable def w7P (t : ℝ) : BoolMap2 :=
  ((identify_polarity_regions (fun a _ => a) (mkPILDetector mag50) t 0
      false 1).pos_map).getD ⟨0, 0, fun _ _ => false⟩

@[simp] theorem oAdd_some_some (a b : ℝ) : oAdd (some a) (some b) = some (a + b) := rfl
@[simp] theorem oAdd_none_right (a : Option ℝ) : oAdd a none = none := by cases a <;> rfl
@[simp] theorem oAdd_none_left (a : Option ℝ) : oAdd none a = none := rfl
@[simp] theorem oSub_some_some (a b : ℝ) : oSub (some a) (some b) = some (a - b) := rfl
@[simp] theorem oSub_none_right (a : Option ℝ) : oSub a none = none := by cases a <;> rfl
@[simp] theorem oSub_none_left (a : Option ℝ) : oSub none a = none := rfl
@[simp] theorem oMul_some_some (a b : ℝ) : oMul (some a) (some b) = some (a * b) := rfl
@[simp] theorem oMul_none_right (a : Option ℝ) : oMul a none = none := by cases a <;> rfl
@[simp] theorem oMul_none_left (a : Option ℝ) : oMul none a = none := rfl
@[simp] theorem oDiv_none_left (a : Option ℝ) : oDiv none a = none := rfl
@[simp] theorem oDiv_none_right (a : Option ℝ) : oDiv a none = none := by cases a <;> rfl

theorem oDiv_some_some (a b : ℝ) (hb : b ≠ 0) :
    oDiv (some a) (some b) = some (a / b) := by simp [oDiv, hb]

theorem npLog_some_pos (a : ℝ) (ha : 0 < a) :
    npLog (some a) = some (Real.log a) := by simp [npLog, ha]

theorem npLog_some_nonpos (a : ℝ) (ha : ¬ 0 < a) : npLog (some a) = none := by
  simp [npLog, ha]

@[simp] theorem npLog_none : npLog none = none := rfl

theorem filter_range_eq_nil (p : ℕ → Bool) (n : ℕ)
    (h : ∀ i, i < n → p i = false) : (List.range n).filter p = [] := by
  refine List.filter_eq_nil_iff.mpr ?_
  intro a ha
  simp only [List.mem_range] at ha
  simp [h a ha]

theorem range_split_at (n j : ℕ) (hj : j < n) :
    List.range n = List.range' 0 j ++ (j :: List.range' (j + 1) (n - j - 1)) := by
  have h := List.range'_append_1 0 j (n - j)
  rw [Nat.zero_add] at h
  have hjrest : List.range' j (n - j) = j :: List.range' (j + 1) (n - j - 1) := by
    obtain ⟨m, hm⟩ : ∃ m, n - j = m + 1 := ⟨n - j - 1, by omega⟩
    rw [hm, List.range'_succ]
    norm_num
  have hn : n - j + j = n := by omega
  rw [hn] at h
  rw [List.range_eq_range', ← hjrest, h]

theorem filter_range'_eq_nil (p : ℕ → Bool) (s n : ℕ)
    (h : ∀ i, s ≤ i → i < s + n → p i = false) :
    (List.range' s n).filter p = [] := by
  refine List.filter_eq_nil_iff.mpr ?_
  intro a ha
  obtain ⟨i, hi, rfl⟩ := List.mem_range'.1 ha
  have hle : s ≤ s + 1 * i := by omega
  have hlt : s + 1 * i < s + n := by omega
  have hpa := h (s + 1 * i) hle hlt
  simpa using hpa

theorem filter_range_eq_cons (p : ℕ → Bool) (n j : ℕ) (hj : j < n)
    (hlow : ∀ i, i < j → p i = false) (hpj : p j = true) :
    ∃ t, (List.range n).filter p = j :: t := by
  have hnilpre : (List.range' 0 j).filter p = [] := by
    refine filter_range'_eq_nil p 0 j ?_
    intro i _ hi
    exact hlow i (by omega)
  rw [range_split_at n j hj, List.filter_append, hnilpre,
    List.filter_cons_of_pos hpj]
  exact ⟨_, rfl⟩

theorem filter_range_getLast_eq (p : ℕ → Bool) (n j : ℕ) (hj : j < n)
    (hpj : p j = true) (hhigh : ∀ i, j < i → i < n → p i = false)
    (h : (List.range n).filter p ≠ []) :
    ((List.range n).filter p).getLast h = j := by
  have hnilpost : (List.range' (j + 1) (n - j - 1)).filter p = [] := by
    refine filter_range'_eq_nil p (j + 1) (n - j - 1) ?_
    intro i hle hlt
    exact hhigh i (by omega) (by omega)
  have hmain : (List.range n).filter p = ((List.range' 0 j).filter p) ++ [j] := by
    rw [range_split_at n j hj, List.filter_append,
      List.filter_cons_of_pos hpj, hnilpost]
  have hlast : ((List.range n).filter p).getLast? = some j := by
    rw [hmain, List.getLast?_concat]
  rw [List.getLast?_eq_getLast _ h] at hlast
  exact Option.some.inj hlast

theorem filter_range_head_eq (p : ℕ → Bool) (n j : ℕ) (hj : j < n)
    (hlow : ∀ i, i < j → p i = false) (hpj : p j = true)
    (h : (List.range n).filter p ≠ []) :
    ((List.range n).filter p).head h = j := by
  obtain ⟨t, ht⟩ := filter_range_eq_cons p n j hj hlow hpj
  have hh : ((List.range n).filter p).head? = some j := by
    rw [ht]; rfl
  rw [List.head?_eq_head h] at hh
  exact Option.some.inj hh

theorem linspace_zero (a b : ℝ) (n : ℕ) : linspace a b n 0 = a := by
  simp [linspace]

theorem linspace_last (a b : ℝ) (n : ℕ) (hn : 2 ≤ n) :
    linspace a b n (n - 1) = b := by
  have h1 : ((n - 1 : ℕ) : ℝ) = (n : ℝ) - 1 := by
    have : (1 : ℕ) ≤ n := by omega
    push_cast [Nat.cast_sub this]
    ring
  have h2 : (n : ℝ) - 1 ≠ 0 := by
    have : (2 : ℝ) ≤ (n : ℝ) := by exact_mod_cast hn
    intro h
    nlinarith
  field_simp [linspace, h1]

theorem linspace_step (a b : ℝ) (n : ℕ) (i : ℕ) :
    linspace a b n (i + 1) - linspace a b n i = (b - a) / ((n : ℝ) - 1) := by
  simp only [linspace]
  push_cast
  ring

theorem linspace_step_pred (a b : ℝ) (n : ℕ) (i : ℕ) (hi : 1 ≤ i) :
    linspace a b n i - linspace a b n (i - 1) = (b - a) / ((n : ℝ) - 1) := by
  have h1 : ((i - 1 : ℕ) : ℝ) = (i : ℝ) - 1 := by
    push_cast [Nat.cast_sub hi]
    ring
  simp only [linspace, h1]
  ring

theorem npGradient_interior (f : ℕ → Option ℝ) (z : ℕ → ℝ) (n i : ℕ)
    (h0 : 0 < i) (h1 : i < n - 1)
    (hu : z (i + 1) - z i = z i - z (i - 1)) (hs : z (i + 1) - z i ≠ 0)
    (vm v0 vp : ℝ) (hm : f (i - 1) = some vm) (hmid : f i = some v0)
    (hp : f (i + 1) = some vp) :
    npGradient f z n i = some ((vp - vm) / (z (i + 1) - z (i - 1))) := by
  have hi0 : i ≠ 0 := by omega
  have hin : i ≠ n - 1 := by omega
  set s := z (i + 1) - z i with hsdef
  have hd : z i - z (i - 1) = s := hu.symm
  have hss : s ≠ 0 := hs
  have hzz : z (i + 1) - z (i - 1) = 2 * s := by
    have : z (i + 1) - z (i - 1) = (z (i + 1) - z i) + (z i - z (i - 1)) := by ring
    rw [this, hd]; ring
  rw [npGradient]
  simp only [hi0, hin, if_false, hd, hm, hmid, hp]
  have hden1 : s * (s + s) ≠ 0 := by
    intro h
    rcases mul_eq_zero.1 h with h' | h'
    · exact hss h'
    · exact hss (by linarith)
  have hden2 : s * s ≠ 0 := mul_ne_zero hss hss
  rw [oDiv_some_some _ _ hden1, oDiv_some_some _ _ hden2, oDiv_some_some _ _ hden1]
  simp only [oMul_some_some, oAdd_some_some, hzz]
  congr 1
  field_simp
  ring

theorem npGradient_left (f : ℕ → Option ℝ) (z : ℕ → ℝ) (n : ℕ)
    (v0 v1 : ℝ) (h0 : f 0 = some v0) (h1 : f 1 = some v1)
    (hs : z 1 - z 0 ≠ 0) :
    npGradient f z n 0 = some ((v1 - v0) / (z 1 - z 0)) := by
  rw [npGradient]
  simp only [if_pos rfl, h0, h1, oSub_some_some]
  exact oDiv_some_some _ _ hs

theorem npGradient_right (f : ℕ → Option ℝ) (z : ℕ → ℝ) (n : ℕ) (hn : 2 ≤ n)
    (va vb : ℝ) (ha : f (n - 2) = some va) (hb : f (n - 1) = some vb)
    (hs : z (n - 1) - z (n - 2) ≠ 0) :
    npGradient f z n (n - 1) = some ((vb - va) / (z (n - 1) - z (n - 2))) := by
  have hne : n - 1 ≠ 0 := by omega
  rw [npGradient]
  simp only [hne, if_false, if_pos rfl, ha, hb, oSub_some_some]
  exact oDiv_some_some _ _ hs

theorem lerpO_some_some (a b t : ℝ) :
    lerpO (some a) (some b) t = some ((1 - t) * a + t * b) := rfl

theorem interp3_col (f : Arr3) (g : ℕ → ℝ)
    (hf : ∀ a b k, f.val a b k = some (g k)) (x y z : ℝ) :
    interp3 f x y z =
      some ((1 - (z - (cellIdx f.s3 z : ℝ))) * g (cellIdx f.s3 z)
        + (z - (cellIdx f.s3 z : ℝ)) * g (cellIdx f.s3 z + 1)) := by
  simp only [interp3, hf, lerpO_some_some]
  congr 1
  ring

theorem calculate_decay_index_default (c : DecayIndexCalculator) (x y : ℝ)
    (n : ℕ) :
    calculate_decay_index c x y none n =
      calculate_decay_index c x y (some (0, (c.bh.s3 : ℝ) - 1)) n := rfl

theorem calculate_decay_index_interior (c : DecayIndexCalculator)
    (x y za zb : ℝ) (n i : ℕ) (h0 : 0 < i) (h1 : i < n - 1)
    (hstep : (zb - za) / ((n : ℝ) - 1) ≠ 0) (vm v0 vp : ℝ)
    (hm : npLog (interp3 c.bh x y (linspace za zb n (i - 1))) = some vm)
    (hmid : npLog (interp3 c.bh x y (linspace za zb n i)) = some v0)
    (hp : npLog (interp3 c.bh x y (linspace za zb n (i + 1))) = some vp) :
    calculate_decay_index c x y (some (za, zb)) n i =
      some (-(linspace za zb n i) * ((vp - vm) /
        (linspace za zb n (i + 1) - linspace za zb n (i - 1)))) := by
  have hu : linspace za zb n (i + 1) - linspace za zb n i =
      linspace za zb n i - linspace za zb n (i - 1) := by
    rw [linspace_step, linspace_step_pred _ _ _ _ (by omega)]
  have hsne : linspace za zb n (i + 1) - linspace za zb n i ≠ 0 := by
    rw [linspace_step]; exact hstep
  have hg := npGradient_interior
    (fun j => npLog (interp3 c.bh x y (linspace za zb n j)))
    (linspace za zb n) n i h0 h1 hu hsne vm v0 vp hm hmid hp
  simp only [calculate_decay_index, Option.getD_some]
  rw [hg]
  simp only [oMul_some_some]

theorem calculate_decay_index_left (c : DecayIndexCalculator)
    (x y za zb : ℝ) (n : ℕ)
    (hstep : (zb - za) / ((n : ℝ) - 1) ≠ 0) (v0 v1 : ℝ)
    (h0 : npLog (interp3 c.bh x y (linspace za zb n 0)) = some v0)
    (h1 : npLog (interp3 c.bh x y (linspace za zb n 1)) = some v1) :
    calculate_decay_index c x y (some (za, zb)) n 0 =
      some (-(linspace za zb n 0) * ((v1 - v0) /
        (linspace za zb n 1 - linspace za zb n 0))) := by
  have hsne : linspace za zb n 1 - linspace za zb n 0 ≠ 0 := by
    have := linspace_step za zb n 0
    simp only [Nat.zero_add] at this
    rw [this]; exact hstep
  have hg := npGradient_left
    (fun j => npLog (interp3 c.bh x y (linspace za zb n j)))
    (linspace za zb n) n v0 v1 h0 h1 hsne
  simp only [calculate_decay_index, Option.getD_some]
  rw [hg]
  simp only [oMul_some_some]

theorem calculate_decay_index_right (c : DecayIndexCalculator)
    (x y za zb : ℝ) (n : ℕ) (hn : 2 ≤ n)
    (hstep : (zb - za) / ((n : ℝ) - 1) ≠ 0) (va vb : ℝ)
    (ha : npLog (interp3 c.bh x y (linspace za zb n (n - 2))) = some va)
    (hb : npLog (interp3 c.bh x y (linspace za zb n (n - 1))) = some vb) :
    calculate_decay_index c x y (some (za, zb)) n (n - 1) =
      some (-(linspace za zb n (n - 1)) * ((vb - va) /
        (linspace za zb n (n - 1) - linspace za zb n (n - 2)))) := by
  have hsne : linspace za zb n (n - 1) - linspace za zb n (n - 2) ≠ 0 := by
    have h := linspace_step_pred za zb n (n - 1) (by omega)
    have h2 : n - 1 - 1 = n - 2 := by omega
    rw [h2] at h
    rw [h]; exact hstep
  have hg := npGradient_right
    (fun j => npLog (interp3 c.bh x y (linspace za zb n j)))
    (linspace za zb n) n hn va vb ha hb hsne
  simp only [calculate_decay_index, Option.getD_some]
  rw [hg]
  simp only [oMul_some_some]

theorem calculate_decay_index_none_at (c : DecayIndexCalculator)
    (x y za zb : ℝ) (n i0 : ℕ) (hn : 2 ≤ n) (hi0 : i0 < n)
    (hnone : npLog (interp3 c.bh x y (linspace za zb n i0)) = none) :
    calculate_decay_index c x y (some (za, zb)) n i0 = none := by
  simp only [calculate_decay_index, Option.getD_some]
  by_cases hz : i0 = 0
  · subst hz
    rw [npGradient]
    simp only [if_pos rfl, hnone]
    simp
  · by_cases hlast : i0 = n - 1
    · rw [npGradient]
      simp only [hz, if_false, if_pos hlast]
      rw [hlast] at hnone
      simp [hnone]
    · rw [npGradient]
      simp only [hz, hlast, if_false, hnone]
      simp

theorem find_critical_height_no_cross (c : DecayIndexCalculator) (x y ci u : ℝ)
    (h : ∀ i, i < 100 →
      ¬ inBand (ci - u) (ci + u) (calculate_decay_index c x y none 100 i)) :
    find_critical_height c x y ci u =
      ⟨calculate_decay_index c x y none 100, none, (none, none)⟩ := by
  have hnil : cross_points (calculate_decay_index c x y none 100) 100
      (ci - u) (ci + u) = [] := by
    refine filter_range_eq_nil _ _ ?_
    intro i hi
    exact decide_eq_false (h i hi)
  simp only [find_critical_height]
  rw [dif_pos hnil]

theorem find_critical_height_cross (c : DecayIndexCalculator) (x y ci u : ℝ)
    (j l : ℕ) (hj : j < 100) (hl : l < 100)
    (hqj : inBand (ci - u) (ci + u) (calculate_decay_index c x y none 100 j))
    (hlow : ∀ i, i < j →
      ¬ inBand (ci - u) (ci + u) (calculate_decay_index c x y none 100 i))
    (hql : inBand (ci - u) (ci + u) (calculate_decay_index c x y none 100 l))
    (hhigh : ∀ i, l < i → i < 100 →
      ¬ inBand (ci - u) (ci + u) (calculate_decay_index c x y none 100 i)) :
    find_critical_height c x y ci u =
      ⟨calculate_decay_index c x y none 100, some ((j : ℝ) * c.dx),
        (some ((j : ℝ) * c.dx - u * c.dx), some ((l : ℝ) * c.dx + u * c.dx))⟩ := by
  set d := calculate_decay_index c x y none 100 with hd
  set p : ℕ → Bool := fun i => decide (inBand (ci - u) (ci + u) (d i)) with hp
  have hpj : p j = true := decide_eq_true hqj
  have hpl : p l = true := decide_eq_true hql
  have hplow : ∀ i, i < j → p i = false := fun i hi => decide_eq_false (hlow i hi)
  have hphigh : ∀ i, l < i → i < 100 → p i = false :=
    fun i hi hi' => decide_eq_false (hhigh i hi hi')
  have hcp : cross_points d 100 (ci - u) (ci + u) = (List.range 100).filter p := rfl
  obtain ⟨t, ht⟩ := filter_range_eq_cons p 100 j hj hplow hpj
  have hne : cross_points d 100 (ci - u) (ci + u) ≠ [] := by
    rw [hcp, ht]; simp
  have hhead : (cross_points d 100 (ci - u) (ci + u)).head hne = j :=
    filter_range_head_eq p 100 j hj hplow hpj hne
  have hlst : (cross_points d 100 (ci - u) (ci + u)).getLast hne = l :=
    filter_range_getLast_eq p 100 l hl hpl hphigh hne
  simp only [find_critical_height]
  rw [dif_neg hne]
  rw [hhead, hlst]

theorem rexp_pow_five : rexp ^ 5 = (Real.exp 1)⁻¹ := by
  rw [rexp, ← Real.exp_nat_mul]
  norm_num [Real.exp_neg]

theorem rexp_gt : (0.81873075 : ℝ) < rexp := by
  have h5 : (0.81873075 : ℝ)^5 < rexp^5 := by
    rw [rexp_pow_five, inv_eq_one_div, lt_div_iff₀ (Real.exp_pos 1)]
    calc (0.81873075:ℝ)^5 * Real.exp 1
        < (0.81873075:ℝ)^5 * 2.7182818286 := by
          have h := Real.exp_one_lt_d9
          have hp : (0:ℝ) < (0.81873075:ℝ)^5 := by norm_num
          nlinarith
      _ < 1 := by norm_num
  exact lt_of_pow_lt_pow_left₀ 5 (le_of_lt (Real.exp_pos _)) h5

theorem rexp_lt : rexp < 0.81873076 := by
  have h5 : rexp^5 < (0.81873076 : ℝ)^5 := by
    rw [rexp_pow_five, inv_eq_one_div, div_lt_iff₀ (Real.exp_pos 1)]
    calc (1:ℝ) < (0.81873076:ℝ)^5 * 2.7182818283 := by norm_num
      _ < (0.81873076:ℝ)^5 * Real.exp 1 := by
          have h := Real.exp_one_gt_d9
          have hp : (0:ℝ) < (0.81873076:ℝ)^5 := by norm_num
          nlinarith
  exact lt_of_pow_lt_pow_left₀ 5 (by norm_num) h5

theorem rexp_pos : 0 < rexp := Real.exp_pos _

theorem log_31_25_lt : Real.log (31/25) < 14/65 := by
  rw [Real.log_lt_iff_lt_exp (by norm_num)]
  have h65 : Real.exp ((14:ℝ)/65)^65 = Real.exp 14 := by
    rw [← Real.exp_nat_mul]; norm_num
  have hpow : ((31:ℝ)/25)^65 < Real.exp ((14:ℝ)/65)^65 := by
    rw [h65]
    calc ((31:ℝ)/25)^65 < 2.7182818283^14 := by norm_num
      _ < (Real.exp 1)^14 := by
          have h := Real.exp_one_gt_d9
          exact pow_lt_pow_left₀ h (by norm_num) (by norm_num)
      _ = Real.exp 14 := by rw [← Real.exp_nat_mul]; norm_num
  exact lt_of_pow_lt_pow_left₀ 65 (le_of_lt (Real.exp_pos _)) hpow

theorem log_1206_ge : (14:ℝ)/75 ≤ Real.log (603/500) := by
  rw [Real.le_log_iff_exp_le (by norm_num)]
  have h75 : Real.exp ((14:ℝ)/75)^75 = Real.exp 14 := by
    rw [← Real.exp_nat_mul]; norm_num
  have key : Real.exp ((14:ℝ)/75)^75 ≤ ((603:ℝ)/500)^75 := by
    rw [h75]
    calc Real.exp 14 = (Real.exp 1)^14 := by rw [← Real.exp_nat_mul]; norm_num
      _ ≤ 2.7182818286^14 := by
          have h := Real.exp_one_lt_d9
          exact pow_le_pow_left₀ (le_of_lt (Real.exp_pos 1)) (le_of_lt h) 14
      _ ≤ ((603:ℝ)/500)^75 := by norm_num
  exact le_of_pow_le_pow_left₀ (by norm_num) (by norm_num) key

theorem log_1237_le : Real.log ((1237:ℝ)/1000) ≤ 16/75 := by
  rw [Real.log_le_iff_le_exp (by norm_num)]
  have h75 : Real.exp ((16:ℝ)/75)^75 = Real.exp 16 := by
    rw [← Real.exp_nat_mul]; norm_num
  have key : ((1237:ℝ)/1000)^75 ≤ Real.exp ((16:ℝ)/75)^75 := by
    rw [h75]
    calc ((1237:ℝ)/1000)^75 ≤ 2.7182818283^16 := by norm_num
      _ ≤ (Real.exp 1)^16 := by
          have h := Real.exp_one_gt_d9
          exact pow_le_pow_left₀ (by norm_num) (le_of_lt h) 16
      _ = Real.exp 16 := by rw [← Real.exp_nat_mul]; norm_num
  exact le_of_pow_le_pow_left₀ (by norm_num) (le_of_lt (Real.exp_pos _)) key

theorem quotA_num_pos (r A : ℝ) (hp : (0.81873075:ℝ) < r) (hA0 : 0 ≤ A)
    (hA99 : A ≤ 99) : 0 < A + (99 - A) * r := by
  nlinarith [mul_le_mul_of_nonneg_left hp.le (sub_nonneg.mpr hA99)]

theorem quotA_den_pos (r A : ℝ) (hp : (0.81873075:ℝ) < r)
    (hq : r < 0.81873076) (hA0 : 0 ≤ A) (hA99 : A ≤ 99) :
    0 < r * ((A + 1) + (98 - A) * r) := by
  have hr : 0 < r := by linarith
  have h2 : 0 < (A + 1) + (98 - A) * r := by nlinarith
  exact mul_pos hr h2

theorem quotA_lt (r A : ℝ) (hp : (0.81873075:ℝ) < r) (hq : r < 0.81873076)
    (hA0 : 0 ≤ A) (hA99 : A ≤ 99) :
    (A + (99 - A) * r) / (r * ((A + 1) + (98 - A) * r)) < 31/25 := by
  rw [div_lt_div_iff₀ (quotA_den_pos r A hp hq hA0 hA99) (by norm_num)]
  have hid : 31 * (r * ((A + 1) + (98 - A) * r)) - (A + (99 - A) * r) * 25 =
      A * ((31*r - 25) * (1 - r)) + 2 * r * (1519 * r - 1222) := by ring
  have h1 : 0 < 31 * r - 25 := by linarith
  have h2 : 0 < 1 - r := by linarith
  have h3 : 0 ≤ A * ((31*r - 25) * (1 - r)) :=
    mul_nonneg hA0 (le_of_lt (mul_pos h1 h2))
  have h4 : 0 < 2 * r * (1519 * r - 1222) := by nlinarith
  linarith

theorem quot15_gt (r : ℝ) (hp : (0.81873075:ℝ) < r) (hq : r < 0.81873076) :
    (603:ℝ)/500 < (7 + 92*r) / (r * (8 + 91*r)) := by
  have hden : 0 < r * (8 + 91*r) := by nlinarith
  rw [div_lt_div_iff₀ (by norm_num) hden]
  nlinarith [mul_pos (sub_pos.mpr hq) (sub_pos.mpr hp)]

theorem quot15_lt (r : ℝ) (hp : (0.81873075:ℝ) < r) (hq : r < 0.81873076) :
    (7 + 92*r) / (r * (8 + 91*r)) < 1237/1000 := by
  have hden : 0 < r * (8 + 91*r) := by nlinarith
  rw [div_lt_div_iff₀ hden (by norm_num)]
  nlinarith [mul_pos (sub_pos.mpr hp) (show (0:ℝ) < r by linarith)]

theorem quot14_lt (r : ℝ) (hp : (0.81873075:ℝ) < r) (hq : r < 0.81873076) :
    (56 + 43*r) / (r * (57 + 42*r)) < 1/r := by
  have hr : 0 < r := by linarith
  have hden : 0 < r * (57 + 42*r) := by nlinarith
  rw [div_lt_div_iff₀ hden hr]
  nlinarith

theorem expMag_val (a b k : ℕ) : expMagArr.val a b k = some (100 * rexp ^ k) := by
  show some (100 * Real.exp (-(k : ℝ) / 5)) = some (100 * rexp ^ k)
  have h : rexp ^ k = Real.exp (-(k : ℝ) / 5) := by
    rw [rexp, ← Real.exp_nat_mul]
    congr 1
    push_cast
    ring
  rw [h]

theorem expCol_L (j k m : ℕ) (hm : m ≤ 98) (hk : k ≤ 48)
    (hkm : 49 * j = 99 * k + m) :
    npLog (interp3 expMagArr 0 0 (linspace 0 49 100 j)) =
      some (Real.log ((100/99) * rexp ^ k * ((99 - (m:ℝ)) + (m:ℝ) * rexp))) := by
  have hz : linspace 0 49 100 j = (49 * (j:ℝ)) / 99 := by
    simp [linspace]
    ring
  have hcast : (49 * (j:ℝ)) = 99 * (k:ℝ) + (m:ℝ) := by
    exact_mod_cast congrArg (Nat.cast : ℕ → ℝ) hkm
  have hfloor : ⌊(49 * (j:ℝ)) / 99⌋₊ = k := by
    rw [Nat.floor_eq_iff (by positivity)]
    constructor
    · rw [le_div_iff₀ (by norm_num)]
      rw [hcast]
      have : (0:ℝ) ≤ (m:ℝ) := Nat.cast_nonneg m
      linarith
    · rw [div_lt_iff₀ (by norm_num)]
      rw [hcast]
      have : (m:ℝ) ≤ 98 := by exact_mod_cast hm
      linarith
  have hcell : cellIdx expMagArr.s3 (linspace 0 49 100 j) = k := by
    rw [cellIdx, hz, hfloor]
    show min k (50 - 2) = k
    omega
  have hval := interp3_col expMagArr (fun k => 100 * rexp ^ k)
    (fun a b k => expMag_val a b k) 0 0 (linspace 0 49 100 j)
  rw [hcell] at hval
  have ht : linspace 0 49 100 j - (k:ℝ) = (m:ℝ) / 99 := by
    rw [hz]
    rw [div_sub' _ _ _ (by norm_num : (99:ℝ) ≠ 0)]
    rw [hcast]
    congr 1
    ring
  rw [ht] at hval
  have hform : (1 - (m:ℝ)/99) * (100 * rexp ^ k) + (m:ℝ)/99 * (100 * rexp ^ (k+1))
      = (100/99) * rexp ^ k * ((99 - (m:ℝ)) + (m:ℝ) * rexp) := by
    rw [pow_succ]
    ring
  rw [hform] at hval
  rw [hval]
  have hpos : 0 < (100/99) * rexp ^ k * ((99 - (m:ℝ)) + (m:ℝ) * rexp) := by
    have h1 : (0:ℝ) < rexp ^ k := pow_pos rexp_pos k
    have h2 : (m:ℝ) ≤ 98 := by exact_mod_cast hm
    have h3 : (0:ℝ) ≤ (m:ℝ) := Nat.cast_nonneg m
    have h4 : (0:ℝ) < (99 - (m:ℝ)) + (m:ℝ) * rexp := by
      have h5 : (0:ℝ) ≤ (m:ℝ) * rexp := mul_nonneg h3 rexp_pos.le
      linarith
    positivity
  exact npLog_some_pos _ hpos

theorem find_critical_height_head (c : DecayIndexCalculator) (x y ci u : ℝ)
    (j : ℕ) (hj : j < 100)
    (hqj : inBand (ci - u) (ci + u) (calculate_decay_index c x y none 100 j))
    (hlow : ∀ i, i < j →
      ¬ inBand (ci - u) (ci + u) (calculate_decay_index c x y none 100 i)) :
    (find_critical_height c x y ci u).critical_height = some ((j : ℝ) * c.dx) := by
  set d := calculate_decay_index c x y none 100 with hd
  set p : ℕ → Bool := fun i => decide (inBand (ci - u) (ci + u) (d i)) with hp
  have hpj : p j = true := decide_eq_true hqj
  have hplow : ∀ i, i < j → p i = false := fun i hi => decide_eq_false (hlow i hi)
  obtain ⟨t, ht⟩ := filter_range_eq_cons p 100 j hj hplow hpj
  have hne : cross_points d 100 (ci - u) (ci + u) ≠ [] := by
    show (List.range 100).filter p ≠ []
    rw [ht]; simp
  have hhead : (cross_points d 100 (ci - u) (ci + u)).head hne = j :=
    filter_range_head_eq p 100 j hj hplow hpj hne
  simp only [find_critical_height]
  rw [dif_neg hne, hhead]

theorem log_phi_sub (u w : ℝ) (k : ℕ) (hu : 0 < u) (hw : 0 < w) :
    Real.log ((100/99) * rexp ^ k * u) - Real.log ((100/99) * rexp ^ (k+1) * w)
      = Real.log (u / (rexp * w)) := by
  have hrk : (0:ℝ) < rexp ^ k := pow_pos rexp_pos k
  have hrk1 : (0:ℝ) < rexp ^ (k+1) := pow_pos rexp_pos (k+1)
  have h1 : ((100:ℝ)/99) * rexp ^ k * u ≠ 0 := by positivity
  have h2 : ((100:ℝ)/99) * rexp ^ (k+1) * w ≠ 0 := by positivity
  rw [← Real.log_div h1 h2]
  congr 1
  rw [pow_succ]
  have hrne : rexp ≠ 0 := ne_of_gt rexp_pos
  field_simp
  ring

theorem log_phi_sub_same (u w : ℝ) (k : ℕ) (hu : 0 < u) (hw : 0 < w) :
    Real.log ((100/99) * rexp ^ k * u) - Real.log ((100/99) * rexp ^ k * w)
      = Real.log (u / w) := by
  have hrk : (0:ℝ) < rexp ^ k := pow_pos rexp_pos k
  have h1 : ((100:ℝ)/99) * rexp ^ k * u ≠ 0 := by positivity
  have h2 : ((100:ℝ)/99) * rexp ^ k * w ≠ 0 := by positivity
  rw [← Real.log_div h1 h2]
  congr 1
  field_simp
  ring

theorem expDecay_val (i : ℕ) (h0 : 0 < i) (h1 : i < 99) (vm v0 vp : ℝ)
    (hm : npLog (interp3 expMagArr 0 0 (linspace 0 49 100 (i - 1))) = some vm)
    (hmid : npLog (interp3 expMagArr 0 0 (linspace 0 49 100 i)) = some v0)
    (hp2 : npLog (interp3 expMagArr 0 0 (linspace 0 49 100 (i + 1))) = some vp) :
    calculate_decay_index expCalc 0 0 none 100 i =
      some (((i:ℝ)/2) * (vm - vp)) := by
  rw [calculate_decay_index_default]
  have hs3 : ((expCalc.bh.s3 : ℝ) - 1) = 49 := by
    norm_num [expCalc, expMagArr]
  rw [hs3]
  have h := calculate_decay_index_interior expCalc 0 0 0 49 100 i h0
    (by omega) (by norm_num) vm v0 vp hm hmid hp2
  rw [h]
  congr 1
  have hzi : linspace 0 49 100 i = 49 * (i:ℝ) / 99 := by
    simp [linspace]; ring
  have hzp : linspace 0 49 100 (i+1) = 49 * ((i:ℝ)+1) / 99 := by
    simp [linspace]; push_cast; ring
  have hzm : linspace 0 49 100 (i-1) = 49 * ((i:ℝ)-1) / 99 := by
    simp only [linspace]
    rw [Nat.cast_sub (by omega : 1 ≤ i)]
    push_cast
    ring
  rw [hzi, hzp, hzm]
  have h98 : 49 * ((i:ℝ)+1) / 99 - 49 * ((i:ℝ)-1) / 99 = 98/99 := by ring
  rw [h98]
  field_simp
  ring

theorem expDecay_zero (v0 v1 : ℝ)
    (h0 : npLog (interp3 expMagArr 0 0 (linspace 0 49 100 0)) = some v0)
    (h1 : npLog (interp3 expMagArr 0 0 (linspace 0 49 100 1)) = some v1) :
    calculate_decay_index expCalc 0 0 none 100 0 = some 0 := by
  rw [calculate_decay_index_default]
  have hs3 : ((expCalc.bh.s3 : ℝ) - 1) = 49 := by
    norm_num [expCalc, expMagArr]
  rw [hs3]
  have h := calculate_decay_index_left expCalc 0 0 0 49 100 (by norm_num)
    v0 v1 h0 h1
  rw [h, linspace_zero]
  norm_num

theorem inBand_some (lo hi v : ℝ) (h1 : lo ≤ v) (h2 : v ≤ hi) :
    inBand lo hi (some v) := ⟨h1, h2⟩

theorem not_inBand_some_lt (lo hi v : ℝ) (hv : v < lo) :
    ¬ inBand lo hi (some v) := by
  intro h
  exact absurd h.1 (not_le.mpr hv)

theorem mid_decay_bound (i : ℕ) (A q : ℝ) (hi1 : 1 ≤ i) (hi13 : i ≤ 13)
    (hA0 : 0 ≤ A) (hA99 : A ≤ 99)
    (hqe : q = (A + (99 - A) * rexp) / (rexp * ((A + 1) + (98 - A) * rexp))) :
    ((i:ℝ)/2) * Real.log q < 1.4 := by
  have hp := rexp_gt
  have hq := rexp_lt
  subst hqe
  have hnum := quotA_num_pos rexp A hp hA0 hA99
  have hden := quotA_den_pos rexp A hp hq hA0 hA99
  have hqlt := quotA_lt rexp A hp hq hA0 hA99
  have hlog : Real.log ((A + (99 - A) * rexp) /
      (rexp * ((A + 1) + (98 - A) * rexp))) < 14/65 :=
    lt_trans (Real.log_lt_log (div_pos hnum hden) hqlt) log_31_25_lt
  have hi2 : (0:ℝ) < (i:ℝ)/2 := by
    have : (1:ℝ) ≤ (i:ℝ) := by exact_mod_cast hi1
    linarith
  have hstep := mul_lt_mul_of_pos_left hlog hi2
  have hcap : ((i:ℝ)/2) * (14/65) ≤ 1.4 := by
    have : (i:ℝ) ≤ 13 := by exact_mod_cast hi13
    nlinarith
  linarith

theorem decay14_bound (q : ℝ)
    (hqe : q = (56 + 43*rexp) / (rexp * (57 + 42*rexp))) :
    (7:ℝ) * Real.log q < 1.4 := by
  have hp := rexp_gt
  have hq := rexp_lt
  subst hqe
  have hpos : 0 < (56 + 43*rexp)/(rexp*(57 + 42*rexp)) := by
    apply div_pos
    · linarith
    · nlinarith
  have hlt := quot14_lt rexp hp hq
  have hlog := Real.log_lt_log hpos hlt
  have hlr : Real.log rexp = -(1/5) := by rw [rexp, Real.log_exp]
  rw [one_div, Real.log_inv, hlr] at hlog
  nlinarith

theorem decay15_band (q : ℝ)
    (hqe : q = (7 + 92*rexp) / (rexp * (8 + 91*rexp))) :
    1.5 - 0.1 ≤ (7.5:ℝ) * Real.log q ∧ (7.5:ℝ) * Real.log q ≤ 1.5 + 0.1 := by
  have hp := rexp_gt
  have hq := rexp_lt
  subst hqe
  have hgt := quot15_gt rexp hp hq
  have hlt := quot15_lt rexp hp hq
  have hposQ : 0 < (7 + 92*rexp)/(rexp*(8 + 91*rexp)) :=
    lt_trans (by norm_num) hgt
  have hlog_lo : (14:ℝ)/75 < Real.log ((7 + 92*rexp)/(rexp*(8 + 91*rexp))) :=
    lt_of_le_of_lt log_1206_ge (Real.log_lt_log (by norm_num) hgt)
  have hlog_hi : Real.log ((7 + 92*rexp)/(rexp*(8 + 91*rexp))) < 16/75 :=
    lt_of_lt_of_le (Real.log_lt_log hposQ hlt) log_1237_le
  constructor
  · nlinarith
  · nlinarith

theorem quot1_lt (r : ℝ) (hp : (0.81873075:ℝ) < r) (hq : r < 0.81873076) :
    (99:ℝ) / (1 + 98*r) < 31/25 := by
  have hden : (0:ℝ) < 1 + 98*r := by linarith
  rw [div_lt_div_iff₀ hden (by norm_num)]
  nlinarith

theorem log_phi_sub' (u w : ℝ) (km kp : ℕ) (hk : kp = km + 1)
    (hu : 0 < u) (hw : 0 < w) :
    Real.log ((100/99) * rexp ^ km * u) - Real.log ((100/99) * rexp ^ kp * w)
      = Real.log (u / (rexp * w)) := by
  subst hk
  exact log_phi_sub u w km hu hw

theorem uform_pos (m : ℕ) (hm : m ≤ 98) :
    (0:ℝ) < (99 - (m:ℝ)) + (m:ℝ) * rexp := by
  have h2 : (m:ℝ) ≤ 98 := by exact_mod_cast hm
  have h3 : (0:ℝ) ≤ (m:ℝ) := Nat.cast_nonneg m
  nlinarith [rexp_pos]

theorem not_inBand_lt14 (v : ℝ) (hv : v < 1.4) :
    ¬ inBand (1.5 - 0.1) (1.5 + 0.1) (some v) := by
  intro h
  have h1 := h.1
  norm_num at h1
  linarith

theorem decay1_bound (q : ℝ) (hqe : q = 99 / (1 + 98*rexp)) :
    ((1:ℕ):ℝ)/2 * Real.log q < 1.4 := by
  subst hqe
  have h := quot1_lt rexp rexp_gt rexp_lt
  have hpos : (0:ℝ) < 99/(1 + 98*rexp) := by
    apply div_pos (by norm_num)
    nlinarith [rexp_pos]
  have hlog := lt_trans (Real.log_lt_log hpos h) log_31_25_lt
  push_cast
  nlinarith

theorem decay14_v2_bound (q : ℝ)
    (hqe : q = (56 + 43*rexp) / (rexp * (57 + 42*rexp))) :
    ((14:ℕ):ℝ)/2 * Real.log q < 1.4 := by
  have h := decay14_bound q hqe
  push_cast
  linarith

theorem decay15_v2_band (q : ℝ)
    (hqe : q = (7 + 92*rexp) / (rexp * (8 + 91*rexp))) :
    1.5 - 0.1 ≤ ((15:ℕ):ℝ)/2 * Real.log q ∧
    ((15:ℕ):ℝ)/2 * Real.log q ≤ 1.5 + 0.1 := by
  have h := decay15_band q hqe
  constructor
  · have h1 := h.1
    push_cast
    linarith
  · have h2 := h.2
    push_cast
    linarith

/-- C1: on the synthetic field `bh(z) = 100 * exp(-z/5)` over `z = 0..49`
with `grid_spacing = 1.0`, construction succeeds, but
`find_critical_height(x, y, 1.5, 0.1)` returns `critical_height = 15.0`,
not ≈ 7.5: the code converts the *sample* index (100 samples over `0..49`)
to a height as `index * grid_spacing`, conflating sample index with grid
coordinate.  The analytic crossing of `z/5 = 1.5` is at height 7.5 and the
returned 15.0 is far outside one sample step of it. -/
theorem C1_crossing_height_bug :
    mkDecayIndexCalculator expBxArr expBxArr expBxArr expMagArr 1 =
      .ok expCalc ∧
    (find_critical_height expCalc 0 0 1.5 0.1).critical_height = some 15 ∧
    ¬ ((15:ℝ) - 7.5 ≤ 1) := by
  refine ⟨rfl, ?_, by norm_num⟩
  have L0 := expCol_L 0 0 0 (by norm_num) (by norm_num) (by norm_num)
  have L1 := expCol_L 1 0 49 (by norm_num) (by norm_num) (by norm_num)
  have L2 := expCol_L 2 0 98 (by norm_num) (by norm_num) (by norm_num)
  have L3 := expCol_L 3 1 48 (by norm_num) (by norm_num) (by norm_num)
  have L4 := expCol_L 4 1 97 (by norm_num) (by norm_num) (by norm_num)
  have L5 := expCol_L 5 2 47 (by norm_num) (by norm_num) (by norm_num)
  have L6 := expCol_L 6 2 96 (by norm_num) (by norm_num) (by norm_num)
  have L7 := expCol_L 7 3 46 (by norm_num) (by norm_num) (by norm_num)
  have L8 := expCol_L 8 3 95 (by norm_num) (by norm_num) (by norm_num)
  have L9 := expCol_L 9 4 45 (by norm_num) (by norm_num) (by norm_num)
  have L10 := expCol_L 10 4 94 (by norm_num) (by norm_num) (by norm_num)
  have L11 := expCol_L 11 5 44 (by norm_num) (by norm_num) (by norm_num)
  have L12 := expCol_L 12 5 93 (by norm_num) (by norm_num) (by norm_num)
  have L13 := expCol_L 13 6 43 (by norm_num) (by norm_num) (by norm_num)
  have L14 := expCol_L 14 6 92 (by norm_num) (by norm_num) (by norm_num)
  have L15 := expCol_L 15 7 42 (by norm_num) (by norm_num) (by norm_num)
  have L16 := expCol_L 16 7 91 (by norm_num) (by norm_num) (by norm_num)
  have D0 := expDecay_zero _ _ L0 L1
  have B0 : ¬ inBand (1.5 - 0.1) (1.5 + 0.1)
      (calculate_decay_index expCalc 0 0 none 100 0) := by
    rw [D0]
    exact not_inBand_lt14 0 (by norm_num)
  have D1 := expDecay_val 1 (by norm_num) (by norm_num) _ _ _ L0 L1 L2
  rw [log_phi_sub_same _ _ 0 (uform_pos 0 (by norm_num))
    (uform_pos 98 (by norm_num))] at D1
  have B1 : ¬ inBand (1.5 - 0.1) (1.5 + 0.1)
      (calculate_decay_index expCalc 0 0 none 100 1) := by
    rw [D1]
    refine not_inBand_lt14 _ ?_
    exact decay1_bound _ (by push_cast; norm_num)
  have D2 := expDecay_val 2 (by norm_num) (by norm_num) _ _ _ L1 L2 L3
  rw [log_phi_sub' _ _ 0 1 (by norm_num) (uform_pos 49 (by norm_num))
    (uform_pos 48 (by norm_num))] at D2
  have B2 : ¬ inBand (1.5 - 0.1) (1.5 + 0.1)
      (calculate_decay_index expCalc 0 0 none 100 2) := by
    rw [D2]
    refine not_inBand_lt14 _ ?_
    exact mid_decay_bound 2 50 _ (by norm_num) (by norm_num) (by norm_num)
      (by norm_num) (by push_cast; norm_num)
  have D3 := expDecay_val 3 (by norm_num) (by norm_num) _ _ _ L2 L3 L4
  rw [log_phi_sub' _ _ 0 1 (by norm_num) (uform_pos 98 (by norm_num))
    (uform_pos 97 (by norm_num))] at D3
  have B3 : ¬ inBand (1.5 - 0.1) (1.5 + 0.1)
      (calculate_decay_index expCalc 0 0 none 100 3) := by
    rw [D3]
    refine not_inBand_lt14 _ ?_
    exact mid_decay_bound 3 1 _ (by norm_num) (by norm_num) (by norm_num)
      (by norm_num) (by push_cast; norm_num)
  have D4 := expDecay_val 4 (by norm_num) (by norm_num) _ _ _ L3 L4 L5
  rw [log_phi_sub' _ _ 1 2 (by norm_num) (uform_pos 48 (by norm_num))
    (uform_pos 47 (by norm_num))] at D4
  have B4 : ¬ inBand (1.5 - 0.1) (1.5 + 0.1)
      (calculate_decay_index expCalc 0 0 none 100 4) := by
    rw [D4]
    refine not_inBand_lt14 _ ?_
    exact mid_decay_bound 4 51 _ (by norm_num) (by norm_num) (by norm_num)
      (by norm_num) (by push_cast; norm_num)
  have D5 := expDecay_val 5 (by norm_num) (by norm_num) _ _ _ L4 L5 L6
  rw [log_phi_sub' _ _ 1 2 (by norm_num) (uform_pos 97 (by norm_num))
    (uform_pos 96 (by norm_num))] at D5
  have B5 : ¬ inBand (1.5 - 0.1) (1.5 + 0.1)
      (calculate_decay_index expCalc 0 0 none 100 5) := by
    rw [D5]
    refine not_inBand_lt14 _ ?_
    exact mid_decay_bound 5 2 _ (by norm_num) (by norm_num) (by norm_num)
      (by norm_num) (by push_cast; norm_num)
  have D6 := expDecay_val 6 (by norm_num) (by norm_num) _ _ _ L5 L6 L7
  rw [log_phi_sub' _ _ 2 3 (by norm_num) (uform_pos 47 (by norm_num))
    (uform_pos 46 (by norm_num))] at D6
  have B6 : ¬ inBand (1.5 - 0.1) (1.5 + 0.1)
      (calculate_decay_index expCalc 0 0 none 100 6) := by
    rw [D6]
    refine not_inBand_lt14 _ ?_
    exact mid_decay_bound 6 52 _ (by norm_num) (by norm_num) (by norm_num)
      (by norm_num) (by push_cast; norm_num)
  have D7 := expDecay_val 7 (by norm_num) (by norm_num) _ _ _ L6 L7 L8
  rw [log_phi_sub' _ _ 2 3 (by norm_num) (uform_pos 96 (by norm_num))
    (uform_pos 95 (by norm_num))] at D7
  have B7 : ¬ inBand (1.5 - 0.1) (1.5 + 0.1)
      (calculate_decay_index expCalc 0 0 none 100 7) := by
    rw [D7]
    refine not_inBand_lt14 _ ?_
    exact mid_decay_bound 7 3 _ (by norm_num) (by norm_num) (by norm_num)
      (by norm_num) (by push_cast; norm_num)
  have D8 := expDecay_val 8 (by norm_num) (by norm_num) _ _ _ L7 L8 L9
  rw [log_phi_sub' _ _ 3 4 (by norm_num) (uform_pos 46 (by norm_num))
    (uform_pos 45 (by norm_num))] at D8
  have B8 : ¬ inBand (1.5 - 0.1) (1.5 + 0.1)
      (calculate_decay_index expCalc 0 0 none 100 8) := by
    rw [D8]
    refine not_inBand_lt14 _ ?_
    exact mid_decay_bound 8 53 _ (by norm_num) (by norm_num) (by norm_num)
      (by norm_num) (by push_cast; norm_num)
  have D9 := expDecay_val 9 (by norm_num) (by norm_num) _ _ _ L8 L9 L10
  rw [log_phi_sub' _ _ 3 4 (by norm_num) (uform_pos 95 (by norm_num))
    (uform_pos 94 (by norm_num))] at D9
  have B9 : ¬ inBand (1.5 - 0.1) (1.5 + 0.1)
      (calculate_decay_index expCalc 0 0 none 100 9) := by
    rw [D9]
    refine not_inBand_lt14 _ ?_
    exact mid_decay_bound 9 4 _ (by norm_num) (by norm_num) (by norm_num)
      (by norm_num) (by push_cast; norm_num)
  have D10 := expDecay_val 10 (by norm_num) (by norm_num) _ _ _ L9 L10 L11
  rw [log_phi_sub' _ _ 4 5 (by norm_num) (uform_pos 45 (by norm_num))
    (uform_pos 44 (by norm_num))] at D10
  have B10 : ¬ inBand (1.5 - 0.1) (1.5 + 0.1)
      (calculate_decay_index expCalc 0 0 none 100 10) := by
    rw [D10]
    refine not_inBand_lt14 _ ?_
    exact mid_decay_bound 10 54 _ (by norm_num) (by norm_num) (by norm_num)
      (by norm_num) (by push_cast; norm_num)
  have D11 := expDecay_val 11 (by norm_num) (by norm_num) _ _ _ L10 L11 L12
  rw [log_phi_sub' _ _ 4 5 (by norm_num) (uform_pos 94 (by norm_num))
    (uform_pos 93 (by norm_num))] at D11
  have B11 : ¬ inBand (1.5 - 0.1) (1.5 + 0.1)
      (calculate_decay_index expCalc 0 0 none 100 11) := by
    rw [D11]
    refine not_inBand_lt14 _ ?_
    exact mid_decay_bound 11 5 _ (by norm_num) (by norm_num) (by norm_num)
      (by norm_num) (by push_cast; norm_num)
  have D12 := expDecay_val 12 (by norm_num) (by norm_num) _ _ _ L11 L12 L13
  rw [log_phi_sub' _ _ 5 6 (by norm_num) (uform_pos 44 (by norm_num))
    (uform_pos 43 (by norm_num))] at D12
  have B12 : ¬ inBand (1.5 - 0.1) (1.5 + 0.1)
      (calculate_decay_index expCalc 0 0 none 100 12) := by
    rw [D12]
    refine not_inBand_lt14 _ ?_
    exact mid_decay_bound 12 55 _ (by norm_num) (by norm_num) (by norm_num)
      (by norm_num) (by push_cast; norm_num)
  have D13 := expDecay_val 13 (by norm_num) (by norm_num) _ _ _ L12 L13 L14
  rw [log_phi_sub' _ _ 5 6 (by norm_num) (uform_pos 93 (by norm_num))
    (uform_pos 92 (by norm_num))] at D13
  have B13 : ¬ inBand (1.5 - 0.1) (1.5 + 0.1)
      (calculate_decay_index expCalc 0 0 none 100 13) := by
    rw [D13]
    refine not_inBand_lt14 _ ?_
    exact mid_decay_bound 13 6 _ (by norm_num) (by norm_num) (by norm_num)
      (by norm_num) (by push_cast; norm_num)
  have D14 := expDecay_val 14 (by norm_num) (by norm_num) _ _ _ L13 L14 L15
  rw [log_phi_sub' _ _ 6 7 (by norm_num) (uform_pos 43 (by norm_num))
    (uform_pos 42 (by norm_num))] at D14
  have B14 : ¬ inBand (1.5 - 0.1) (1.5 + 0.1)
      (calculate_decay_index expCalc 0 0 none 100 14) := by
    rw [D14]
    refine not_inBand_lt14 _ ?_
    exact decay14_v2_bound _ (by push_cast; norm_num)
  have D15 := expDecay_val 15 (by norm_num) (by norm_num) _ _ _ L14 L15 L16
  rw [log_phi_sub' _ _ 6 7 (by norm_num) (uform_pos 92 (by norm_num))
    (uform_pos 91 (by norm_num))] at D15
  have B15 : inBand (1.5 - 0.1) (1.5 + 0.1)
      (calculate_decay_index expCalc 0 0 none 100 15) := by
    rw [D15]
    refine inBand_some _ _ _ ?_ ?_
    · exact (decay15_v2_band _ (by push_cast; norm_num)).1
    · exact (decay15_v2_band _ (by push_cast; norm_num)).2
  have hlow : ∀ i, i < 15 → ¬ inBand (1.5 - 0.1) (1.5 + 0.1)
      (calculate_decay_index expCalc 0 0 none 100 i) := by
    intro i hi
    interval_cases i <;> assumption
  have hhead := find_critical_height_head expCalc 0 0 1.5 0.1 15
    (by norm_num) B15 hlow
  rw [hhead]
  norm_num [expCalc]

theorem oneArr_interp (x y z : ℝ) : interp3 oneArr x y z = some 1 := by
  have hval := interp3_col oneArr (fun _ => 1) (fun _ _ _ => rfl) x y z
  rw [hval]
  congr 1
  ring

theorem oneArr_L (x y z : ℝ) : npLog (interp3 oneArr x y z) = some 0 := by
  rw [oneArr_interp, npLog_some_pos 1 one_pos, Real.log_one]

theorem oneCalc_decay (i : ℕ) (hi : i < 100) :
    calculate_decay_index oneCalc 0 0 none 100 i = some 0 := by
  rw [calculate_decay_index_default]
  have hs3 : ((oneCalc.bh.s3 : ℝ) - 1) = 1 := by
    norm_num [oneCalc, oneArr]
  rw [hs3]
  have hstep : ((1:ℝ) - 0) / ((100:ℝ) - 1) ≠ 0 := by norm_num
  by_cases h0 : i = 0
  · subst h0
    have h := calculate_decay_index_left oneCalc 0 0 0 1 100 hstep 0 0
      (oneArr_L 0 0 _) (oneArr_L 0 0 _)
    rw [h]
    norm_num
  · by_cases h99 : i = 99
    · subst h99
      have h := calculate_decay_index_right oneCalc 0 0 0 1 100 (by norm_num)
        hstep 0 0 (oneArr_L 0 0 _) (oneArr_L 0 0 _)
      norm_num at h
      rw [h]
    · have h := calculate_decay_index_interior oneCalc 0 0 0 1 100 i
        (by omega) (by omega) hstep 0 0 0
        (oneArr_L 0 0 _) (oneArr_L 0 0 _) (oneArr_L 0 0 _)
      rw [h]
      norm_num

theorem stepArr_interp (j : ℕ) (hj : j ≤ 5) :
    interp3 stepArr 0 0 (linspace 0 6 7 j) =
      some (if j = 3 then (0:ℝ) else 1) := by
  have hz : linspace 0 6 7 j = (j:ℝ) := by
    simp only [linspace]
    norm_num
  have hfloor : ⌊(j:ℝ)⌋₊ = j := Nat.floor_natCast j
  have hcell : cellIdx stepArr.s3 (linspace 0 6 7 j) = j := by
    rw [cellIdx, hz, hfloor]
    show min j (7 - 2) = j
    omega
  have hval := interp3_col stepArr (fun k => if k = 3 then (0:ℝ) else 1)
    (fun _ _ _ => rfl) 0 0 (linspace 0 6 7 j)
  rw [hcell, hz] at hval
  rw [hz, hval]
  congr 1
  ring

/-- C4: whenever no sample of the decay-index profile falls inside
`[critical_index - uncertainty, critical_index + uncertainty]`,
`find_critical_height` returns normally with the `+inf` sentinel (`none`)
as both the critical height and both ends of the range. -/
theorem C4_no_crossing_sentinel (c : DecayIndexCalculator) (x y ci u : ℝ)
    (h : ∀ i, i < 100 →
      ¬ inBand (ci - u) (ci + u) (calculate_decay_index c x y none 100 i)) :
    (find_critical_height c x y ci u).critical_height = none ∧
    (find_critical_height c x y ci u).critical_height_range = (none, none) := by
  rw [find_critical_height_no_cross c x y ci u h]
  exact ⟨rfl, rfl⟩

/-- C4 witness: the constant-magnitude field has an identically-zero profile,
no sample of which lies in `[1.4, 1.6]`, and the sentinel is returned. -/
theorem C4_witness :
    (find_critical_height oneCalc 0 0 1.5 0.1).critical_height = none ∧
    (find_critical_height oneCalc 0 0 1.5 0.1).critical_height_range =
      (none, none) := by
  refine C4_no_crossing_sentinel oneCalc 0 0 1.5 0.1 ?_
  intro i hi
  rw [oneCalc_decay i hi]
  exact not_inBand_lt14 0 (by norm_num)

/-- C5: when the profile has qualifying samples, the critical height is the
height (`index * grid_spacing`) of the first (lowest-index) qualifying
sample, and the range is
`(first height - uncertainty * dx, last height + uncertainty * dx)`. -/
theorem C5_first_last_crossing (c : DecayIndexCalculator) (x y ci u : ℝ)
    (j l : ℕ) (hj : j < 100) (hl : l < 100)
    (hqj : inBand (ci - u) (ci + u) (calculate_decay_index c x y none 100 j))
    (hlow : ∀ i, i < j →
      ¬ inBand (ci - u) (ci + u) (calculate_decay_index c x y none 100 i))
    (hql : inBand (ci - u) (ci + u) (calculate_decay_index c x y none 100 l))
    (hhigh : ∀ i, l < i → i < 100 →
      ¬ inBand (ci - u) (ci + u) (calculate_decay_index c x y none 100 i)) :
    (find_critical_height c x y ci u).critical_height =
      some ((j : ℝ) * c.dx) ∧
    (find_critical_height c x y ci u).critical_height_range =
      (some ((j : ℝ) * c.dx - u * c.dx), some ((l : ℝ) * c.dx + u * c.dx)) := by
  rw [find_critical_height_cross c x y ci u j l hj hl hqj hlow hql hhigh]
  exact ⟨rfl, rfl⟩

/-- C5 witness: on the constant field with `critical_index = 0`, every
sample qualifies, so the first is index 0 and the last index 99; with
`dx = 1` and `uncertainty = 0.1` the height is 0 and the range
`(-0.1, 99.1)`. -/
theorem C5_witness :
    (find_critical_height oneCalc 0 0 0 0.1).critical_height = some 0 ∧
    (find_critical_height oneCalc 0 0 0 0.1).critical_height_range =
      (some (-(0.1:ℝ)), some 99.1) := by
  have hband : inBand ((0:ℝ) - 0.1) (0 + 0.1) (some (0:ℝ)) :=
    ⟨by norm_num, by norm_num⟩
  have hq0 : inBand ((0:ℝ) - 0.1) (0 + 0.1)
      (calculate_decay_index oneCalc 0 0 none 100 0) := by
    rw [oneCalc_decay 0 (by norm_num)]
    exact hband
  have hq99 : inBand ((0:ℝ) - 0.1) (0 + 0.1)
      (calculate_decay_index oneCalc 0 0 none 100 99) := by
    rw [oneCalc_decay 99 (by norm_num)]
    exact hband
  have hc := C5_first_last_crossing oneCalc 0 0 0 0.1 0 99 (by norm_num)
    (by norm_num) hq0 (by intro i hi; omega) hq99
    (by intro i hi hi2; omega)
  constructor
  · rw [hc.1]
    norm_num [oneCalc]
  · rw [hc.2]
    norm_num [oneCalc]

/-- C8: `calculate_decay_index` defaults the z-range to `(0, nz - 1)`,
samples exactly `n_points` evenly spaced heights from `z_range[0]` to
`z_range[1]` (first sample at `z_range[0]`, last at `z_range[1]`, constant
step `(zb - za)/(n - 1)`), and every interior entry of the profile is the
central difference `-z_i * (ln bh_{i+1} - ln bh_{i-1}) / (z_{i+1} - z_{i-1})`
of the log of the sampled interpolant whenever the three stencil values are
finite.  (NumPy's gradient needs at least two samples, and a degenerate
z-range with `za = zb` makes the log-derivative a non-finite 0/0.) -/
theorem C8_sampling_and_gradient (c : DecayIndexCalculator) (x y za zb : ℝ)
    (n : ℕ) (hn : 2 ≤ n) (hz : za ≠ zb) :
    (calculate_decay_index c x y none n =
      calculate_decay_index c x y (some (0, (c.bh.s3 : ℝ) - 1)) n) ∧
    linspace za zb n 0 = za ∧
    linspace za zb n (n - 1) = zb ∧
    (∀ i, linspace za zb n (i + 1) - linspace za zb n i =
      (zb - za) / ((n : ℝ) - 1)) ∧
    (∀ i vm v0 vp, 0 < i → i < n - 1 →
      npLog (interp3 c.bh x y (linspace za zb n (i - 1))) = some vm →
      npLog (interp3 c.bh x y (linspace za zb n i)) = some v0 →
      npLog (interp3 c.bh x y (linspace za zb n (i + 1))) = some vp →
      calculate_decay_index c x y (some (za, zb)) n i =
        some (-(linspace za zb n i) * ((vp - vm) /
          (linspace za zb n (i + 1) - linspace za zb n (i - 1))))) := by
  have hstep : (zb - za) / ((n : ℝ) - 1) ≠ 0 := by
    have hne : (n:ℝ) - 1 ≠ 0 := by
      have h2 : (2:ℝ) ≤ (n:ℝ) := by exact_mod_cast hn
      intro hcontra
      nlinarith
    exact div_ne_zero (sub_ne_zero.mpr (Ne.symm hz)) hne
  refine ⟨rfl, linspace_zero za zb n, linspace_last za zb n hn,
    fun i => linspace_step za zb n i, ?_⟩
  intro i vm v0 vp h0 h1 hm hmid hp2
  exact calculate_decay_index_interior c x y za zb n i h0 h1 hstep
    vm v0 vp hm hmid hp2

/-- C8 witness: on the constant field with z-range `(0, 1)` and three
sample points, the interior entry equals the central-difference formula. -/
theorem C8_witness :
    calculate_decay_index oneCalc 0 0 (some (0, 1)) 3 1 =
      some (-(linspace 0 1 3 1) * (((0:ℝ) - 0) /
        (linspace 0 1 3 2 - linspace 0 1 3 0))) := by
  have h := (C8_sampling_and_gradient oneCalc 0 0 0 1 3 (by norm_num)
    (by norm_num)).2.2.2.2
  exact h 1 0 0 0 (by norm_num) (by norm_num) (oneArr_L 0 0 _)
    (oneArr_L 0 0 _) (oneArr_L 0 0 _)

/-- C9: a non-positive interpolated magnitude at sample `i0` makes the
profile entry at `i0` non-finite (`none`, the embedding of the not-a-number
propagation through `np.log` and `np.gradient`) while every interior entry
whose three-point stencil sees only positive magnitudes is still computed
by the ordinary finite formula; no exception interrupts the column-wise
computation (the embedded function is total). -/
theorem C9_nonpositive_propagates (c : DecayIndexCalculator) (x y za zb : ℝ)
    (n i0 : ℕ) (hn : 2 ≤ n) (hi0 : i0 < n) (v : ℝ)
    (hv : interp3 c.bh x y (linspace za zb n i0) = some v) (hv0 : v ≤ 0) :
    calculate_decay_index c x y (some (za, zb)) n i0 = none ∧
    (∀ i vm v0 vp, 0 < i → i < n - 1 → za ≠ zb →
      interp3 c.bh x y (linspace za zb n (i - 1)) = some vm → 0 < vm →
      interp3 c.bh x y (linspace za zb n i) = some v0 → 0 < v0 →
      interp3 c.bh x y (linspace za zb n (i + 1)) = some vp → 0 < vp →
      calculate_decay_index c x y (some (za, zb)) n i =
        some (-(linspace za zb n i) * ((Real.log vp - Real.log vm) /
          (linspace za zb n (i + 1) - linspace za zb n (i - 1))))) := by
  constructor
  · apply calculate_decay_index_none_at c x y za zb n i0 hn hi0
    rw [hv]
    exact npLog_some_nonpos v (not_lt.mpr hv0)
  · intro i vm v0 vp h0 h1 hz hm hvm hmid hv0' hp2 hvp
    have hstep : (zb - za) / ((n : ℝ) - 1) ≠ 0 := by
      have hne : (n:ℝ) - 1 ≠ 0 := by
        have h2 : (2:ℝ) ≤ (n:ℝ) := by exact_mod_cast hn
        intro hcontra
        nlinarith
      exact div_ne_zero (sub_ne_zero.mpr (Ne.symm hz)) hne
    refine calculate_decay_index_interior c x y za zb n i h0 h1 hstep
      (Real.log vm) (Real.log v0) (Real.log vp) ?_ ?_ ?_
    · rw [hm]; exact npLog_some_pos vm hvm
    · rw [hmid]; exact npLog_some_pos v0 hv0'
    · rw [hp2]; exact npLog_some_pos vp hvp

/-- C9 witness: the zero-magnitude plane at height 3 of `stepArr` makes the
entry at sample 3 non-finite, while the clean interior entry at sample 1 is
still computed. -/
theorem C9_witness :
    calculate_decay_index stepCalc 0 0 (some (0, 6)) 7 3 = none ∧
    calculate_decay_index stepCalc 0 0 (some (0, 6)) 7 1 =
      some (-(linspace 0 6 7 1) * ((Real.log 1 - Real.log 1) /
        (linspace 0 6 7 2 - linspace 0 6 7 0))) := by
  have hz3 : interp3 stepArr 0 0 (linspace 0 6 7 3) = some 0 := by
    have h := stepArr_interp 3 (by norm_num)
    simpa using h
  have hz0 : interp3 stepArr 0 0 (linspace 0 6 7 0) = some 1 := by
    have h := stepArr_interp 0 (by norm_num)
    simpa using h
  have hz1 : interp3 stepArr 0 0 (linspace 0 6 7 1) = some 1 := by
    have h := stepArr_interp 1 (by norm_num)
    simpa using h
  have hz2 : interp3 stepArr 0 0 (linspace 0 6 7 2) = some 1 := by
    have h := stepArr_interp 2 (by norm_num)
    simpa using h
  have h := C9_nonpositive_propagates stepCalc 0 0 0 6 7 3 (by norm_num)
    (by norm_num) 0 hz3 le_rfl
  refine ⟨h.1, ?_⟩
  exact h.2 1 1 1 1 (by norm_num) (by norm_num) (by norm_num) hz0 one_pos
    hz1 one_pos hz2 one_pos

theorem extract_pil_error (cannyF : ℝ → BoolMap2 → BoolMap2)
    (dilF : ℕ → BoolMap2 → BoolMap2) (thinF : BoolMap2 → BoolMap2)
    (det : PILDetector) (thinning : Bool) (e : Unit)
    (hde : detect_edges cannyF 1 det = .error e) :
    extract_pil cannyF dilF thinF det thinning = .error e := by
  rw [extract_pil, hde]

theorem extract_pil_ok (cannyF : ℝ → BoolMap2 → BoolMap2)
    (dilF : ℕ → BoolMap2 → BoolMap2) (thinF : BoolMap2 → BoolMap2)
    (det : PILDetector) (thinning : Bool) (pe ne : BoolMap2)
    (hde : detect_edges cannyF 1 det = .ok (pe, ne)) :
    extract_pil cannyF dilF thinF det thinning =
      .ok (⟨det.data, det.pos_map, det.neg_map,
            some (if thinning then thinF (pilRaw dilF det pe ne)
              else pilRaw dilF det pe ne)⟩,
           if thinning then thinF (pilRaw dilF det pe ne)
             else pilRaw dilF det pe ne) := by
  rw [extract_pil, hde]

/-- C2 counterexample: with the inverted thresholds `pos_thresh = 0`,
`neg_thresh = 100` on the all-50 magnetogram, `identify_polarity_regions`
silently succeeds and the single pixel is set in *both* polarity maps —
the fully-overlapping degenerate split the claim says cannot be produced
silently. -/
theorem C2_counterexample :
    ((0:ℝ) ≤ 100) ∧
    (w2det.pos_map.getD ⟨0, 0, fun _ _ => false⟩).val 0 0 = true ∧
    (w2det.neg_map.getD ⟨0, 0, fun _ _ => false⟩).val 0 0 = true := by
  refine ⟨by norm_num, ?_, ?_⟩
  · show decide (∃ v, mag50.val 0 0 = some v ∧ (0:ℝ) ≤ v) = true
    exact decide_eq_true ⟨50, rfl, by norm_num⟩
  · show decide (∃ v, mag50.val 0 0 = some v ∧ v ≤ (100:ℝ)) = true
    exact decide_eq_true ⟨50, rfl, by norm_num⟩

/-- C2 amended: `identify_polarity_regions` performs no threshold
validation: for every threshold pair (including `pos_thresh ≤ neg_thresh`)
it silently returns both maps, and a pixel is in the positive map iff its
(optionally smoothed) value is `≥ pos_thresh` and in the negative map iff
`≤ neg_thresh`; with overlapping thresholds any pixel whose value lies in
`[pos_thresh, neg_thresh]` is therefore set in both maps. -/
theorem C2_amended_no_validation (gaussF : Arr2 → ℝ → Arr2)
    (det : PILDetector) (pos_thresh neg_thresh sigma : ℝ) (ag : Bool)
    (P N : BoolMap2)
    (hP : (identify_polarity_regions gaussF det pos_thresh neg_thresh ag
      sigma).pos_map = some P)
    (hN : (identify_polarity_regions gaussF det pos_thresh neg_thresh ag
      sigma).neg_map = some N) (i j : ℕ) :
    (P.val i j = true ↔ (∃ v,
      (if ag then gaussF det.data sigma else det.data).val i j = some v ∧
      pos_thresh ≤ v)) ∧
    (N.val i j = true ↔ (∃ v,
      (if ag then gaussF det.data sigma else det.data).val i j = some v ∧
      v ≤ neg_thresh)) := by
  simp only [identify_polarity_regions, Option.some.injEq] at hP hN
  constructor
  · rw [← hP]
    simp only [decide_eq_true_eq]
  · rw [← hN]
    simp only [decide_eq_true_eq]

/-- C2 witness: with `pos_thresh = 5 ≤ neg_thresh = 9` on the all-7
magnetogram, the amended description puts the pixel in both maps. -/
theorem C2_witness :
    ((5:ℝ) ≤ 9) ∧
    (w2bdet.pos_map.getD ⟨0, 0, fun _ _ => false⟩).val 0 0 = true ∧
    (w2bdet.neg_map.getD ⟨0, 0, fun _ _ => false⟩).val 0 0 = true := by
  have h := C2_amended_no_validation (fun a _ => a) (mkPILDetector mag7)
    5 9 1 false _ _ rfl rfl 0 0
  refine ⟨by norm_num, ?_, ?_⟩
  · exact h.1.mpr ⟨7, rfl, by norm_num⟩
  · exact h.2.mpr ⟨7, rfl, by norm_num⟩

/-- C3 counterexample: a field whose `by` component has shape `(1, 1, 1)`
while `bx`, `bz`, `bh` all have shape `(2, 2, 2)` is accepted silently —
construction only compares `bh` against `bx`, refuting the claim that any
shape disagreement among the four arrays fails construction. -/
theorem C3_counterexample :
    exceptOk (mkDecayIndexCalculator cubeArr smallArr cubeArr cubeArr 1) =
      true ∧
    smallArr.s1 ≠ cubeArr.s1 := by
  exact ⟨rfl, by decide⟩

/-- C3 amended: construction fails exactly when the shape of `bh` differs
from the shape of `bx` (the axes of the interpolator are taken from
`bx.shape` and `RegularGridInterpolator` validates them against the value
array `bh`); the shapes of `by` and `bz` are never inspected, so
construction succeeds whenever `bh` and `bx` agree — in particular when all
four arrays share one shape. -/
theorem C3_amended_shape_check (bx bb bz bh : Arr3) (dx : ℝ) :
    (exceptOk (mkDecayIndexCalculator bx bb bz bh dx) = true ↔
      (bh.s1 = bx.s1 ∧ bh.s2 = bx.s2 ∧ bh.s3 = bx.s3)) ∧
    (∀ bb2 bz2 : Arr3, mkDecayIndexCalculator bx bb2 bz2 bh dx =
      mkDecayIndexCalculator bx bb bz bh dx) := by
  constructor
  · constructor
    · intro h
      by_contra hc
      rw [mkDecayIndexCalculator, if_neg hc] at h
      simp [exceptOk] at h
    · intro h
      rw [mkDecayIndexCalculator, if_pos h]
      rfl
  · intro bb2 bz2
    rfl

/-- C6: every true pixel of the map returned by `extract_pil` (with or
without thinning, for any magnetogram including ones with not-a-number
pixels) sits on a magnetogram pixel that is not not-a-number.  The skimage
thinning is modelled by the parameter `thinF` together with its documented
property that thinning only removes pixels. -/
theorem C6_pil_masking (cannyF : ℝ → BoolMap2 → BoolMap2)
    (dilF : ℕ → BoolMap2 → BoolMap2) (thinF : BoolMap2 → BoolMap2)
    (hthin : ∀ m i j, (thinF m).val i j = true → m.val i j = true)
    (det : PILDetector) (thinning : Bool) (res : PILDetector × BoolMap2)
    (hok : extract_pil cannyF dilF thinF det thinning = .ok res)
    (i j : ℕ) (hij : res.2.val i j = true) :
    (det.data.val i j).isSome = true := by
  cases hde : detect_edges cannyF 1 det with
  | error e =>
    rw [extract_pil_error cannyF dilF thinF det thinning e hde] at hok
    exact absurd hok (by simp)
  | ok pene =>
    obtain ⟨pe, ne⟩ := pene
    rw [extract_pil_ok cannyF dilF thinF det thinning pe ne hde] at hok
    have hres := Except.ok.inj hok
    have h2 : res.2 = (if thinning then thinF (pilRaw dilF det pe ne)
        else pilRaw dilF det pe ne) := by
      rw [← hres]
    rw [h2] at hij
    cases thinning with
    | false =>
      simp only [Bool.false_eq_true, if_false] at hij
      simp only [pilRaw, Bool.and_eq_true] at hij
      exact hij.2
    | true =>
      simp only [if_true] at hij
      have h0 := hthin _ i j hij
      simp only [pilRaw, Bool.and_eq_true] at h0
      exact h0.2

/-- C6 witness: on the all-50 magnetogram with identity stand-ins for the
library routines, `extract_pil` succeeds, its map is true at the single
pixel, and the masking theorem applies there. -/
theorem C6_witness : (w2det.data.val 0 0).isSome = true := by
  have hde : detect_edges (fun _ m => m) 1 w2det =
      .ok (w2det.pos_map.getD ⟨0, 0, fun _ _ => false⟩,
           w2det.neg_map.getD ⟨0, 0, fun _ _ => false⟩) := rfl
  have hok := extract_pil_ok (fun _ m => m) (fun _ m => m) id w2det false
    (w2det.pos_map.getD ⟨0, 0, fun _ _ => false⟩)
    (w2det.neg_map.getD ⟨0, 0, fun _ _ => false⟩) hde
  have hij : (if false then id (pilRaw (fun _ m => m) w2det
      (w2det.pos_map.getD ⟨0, 0, fun _ _ => false⟩)
      (w2det.neg_map.getD ⟨0, 0, fun _ _ => false⟩))
      else pilRaw (fun _ m => m) w2det
      (w2det.pos_map.getD ⟨0, 0, fun _ _ => false⟩)
      (w2det.neg_map.getD ⟨0, 0, fun _ _ => false⟩)).val 0 0 = true := by
    show ((w2det.pos_map.getD ⟨0, 0, fun _ _ => false⟩).val 0 0 &&
      (w2det.neg_map.getD ⟨0, 0, fun _ _ => false⟩).val 0 0 &&
      (w2det.data.val 0 0).isSome) = true
    have hpv : (w2det.pos_map.getD ⟨0, 0, fun _ _ => false⟩).val 0 0 = true :=
      decide_eq_true ⟨50, rfl, by norm_num⟩
    have hnv : (w2det.neg_map.getD ⟨0, 0, fun _ _ => false⟩).val 0 0 = true :=
      decide_eq_true ⟨50, rfl, by norm_num⟩
    rw [hpv, hnv]
    rfl
  exact C6_pil_masking (fun _ m => m) (fun _ m => m) id (fun m i j h => h)
    w2det false _ hok 0 0 hij

/-- C7: for a fixed magnetogram and fixed smoothing settings, the positive
polarity map's true-pixel count is antitone in `pos_thresh`: raising the
threshold never increases the count. -/
theorem C7_pos_threshold_antitone (gaussF : Arr2 → ℝ → Arr2)
    (det : PILDetector) (neg sigma t1 t2 : ℝ) (ag : Bool) (ht : t1 ≤ t2)
    (P1 P2 : BoolMap2)
    (h1 : (identify_polarity_regions gaussF det t1 neg ag sigma).pos_map =
      some P1)
    (h2 : (identify_polarity_regions gaussF det t2 neg ag sigma).pos_map =
      some P2) :
    countTrue P2 ≤ countTrue P1 := by
  simp only [identify_polarity_regions, Option.some.injEq] at h1 h2
  rw [← h1, ← h2, countTrue, countTrue]
  apply Finset.card_le_card
  intro q hq
  simp only [Finset.mem_filter] at hq ⊢
  refine ⟨hq.1, ?_⟩
  have hv := hq.2
  simp only [decide_eq_true_eq] at hv ⊢
  obtain ⟨v, hv1, hv2⟩ := hv
  exact ⟨v, hv1, le_trans ht hv2⟩

/-- C7 witness: on the all-50 magnetogram, the positive map at threshold 60
has no more true pixels than the one at threshold 40. -/
theorem C7_witness : ((40:ℝ) ≤ 60) ∧ countTrue (w7P 60) ≤ countTrue (w7P 40) := by
  refine ⟨by norm_num, ?_⟩
  exact C7_pos_threshold_antitone (fun a _ => a) (mkPILDetector mag50) 0 1
    40 60 false (by norm_num) (w7P 40) (w7P 60) rfl rfl

/-- C10: calling `extract_pil` (or `detect_edges`) on a freshly constructed
detector fails, because the polarity maps are still the `None` sentinel;
after `identify_polarity_regions` has run, `extract_pil` succeeds and
returns a map of the magnetogram's shape (the skimage thinning is modelled
by `thinF` with its shape-preservation property). -/
theorem C10_maps_precondition (cannyF : ℝ → BoolMap2 → BoolMap2)
    (dilF : ℕ → BoolMap2 → BoolMap2) (thinF : BoolMap2 → BoolMap2)
    (hshape : ∀ m, (thinF m).rows = m.rows ∧ (thinF m).cols = m.cols)
    (m : Arr2) (gaussF : Arr2 → ℝ → Arr2) (pos neg sigma : ℝ)
    (ag thinning : Bool) :
    exceptOk (detect_edges cannyF 1 (mkPILDetector m)) = false ∧
    exceptOk (extract_pil cannyF dilF thinF (mkPILDetector m) thinning) =
      false ∧
    (∃ res, extract_pil cannyF dilF thinF
        (identify_polarity_regions gaussF (mkPILDetector m) pos neg ag sigma)
        thinning = .ok res ∧
      res.2.rows = m.rows ∧ res.2.cols = m.cols) := by
  have hde0 : detect_edges cannyF 1 (mkPILDetector m) = .error () := rfl
  refine ⟨by rw [hde0]; rfl, ?_, ?_⟩
  · rw [extract_pil_error cannyF dilF thinF (mkPILDetector m) thinning () hde0]
    rfl
  · have hde2 : detect_edges cannyF 1
        (identify_polarity_regions gaussF (mkPILDetector m) pos neg ag sigma)
        = .ok (cannyF 1 (⟨(if ag then gaussF m sigma else m).rows,
            (if ag then gaussF m sigma else m).cols, fun i j => decide
              (∃ v, (if ag then gaussF m sigma else m).val i j = some v ∧
                pos ≤ v)⟩),
          cannyF 1 (⟨(if ag then gaussF m sigma else m).rows,
            (if ag then gaussF m sigma else m).cols, fun i j => decide
              (∃ v, (if ag then gaussF m sigma else m).val i j = some v ∧
                v ≤ neg)⟩)) := rfl
    refine ⟨_, extract_pil_ok cannyF dilF thinF _ thinning _ _ hde2, ?_, ?_⟩
    · cases thinning with
      | false => rfl
      | true => exact (hshape _).1
    · cases thinning with
      | false => rfl
      | true => exact (hshape _).2

/-- C10 witness: with identity stand-ins for the library routines on the
all-50 magnetogram, the fresh-detector calls fail and the post-identify
call succeeds with a `1 x 1` map. -/
theorem C10_witness :
    exceptOk (detect_edges (fun _ b => b) 1 (mkPILDetector mag50)) = false ∧
    exceptOk (extract_pil (fun _ b => b) (fun _ b => b) id
      (mkPILDetector mag50) true) = false := by
  have h := C10_maps_precondition (fun _ b => b) (fun _ b => b) id
    (fun b => ⟨rfl, rfl⟩) mag50 (fun a _ => a) 100 (-100) 3 false true
  exact ⟨h.1, h.2.1⟩

end StabilityAnalysis
